import Mathlib

/-!
Verification of the hostname-to-storage-key derivation and the
subdomain-matching algorithm of `chrome_sts.py`, a small editor for the
browser's persisted Strict Transport Security store.

The script is Python 2, so hostnames are byte strings; we model them as
`List Nat` of byte values.  Dictionaries (both the persisted store and the
per-site configuration objects) are modelled as association lists.  Code
that can raise (the `chr` length-byte encoding, JSON parsing) lives in
`Except Unit`.  The library calls `hashlib.sha256` and `base64.b64encode`
are modelled by executable implementations of the standard SHA-256 and
standard base64 (with padding) algorithms, so every key computation can be
evaluated on concrete inputs.
-/

/-- Byte values of an ASCII string (used to write concrete inputs). -/
def strBytes (s : String) : List Nat := s.data.map Char.toNat

/-! ## SHA-256 (model of `hashlib.sha256`) -/

/-- Truncation to a 32-bit word. -/
def u32 (x : Nat) : Nat := x % 4294967296

/-- Right rotation of a 32-bit word. -/
def rotr32 (n x : Nat) : Nat := u32 ((x >>> n) ||| (x <<< (32 - n)))

def sumA (x : Nat) : Nat := rotr32 2 x ^^^ rotr32 13 x ^^^ rotr32 22 x

def sumE (x : Nat) : Nat := rotr32 6 x ^^^ rotr32 11 x ^^^ rotr32 25 x

def sigLo (x : Nat) : Nat := rotr32 7 x ^^^ rotr32 18 x ^^^ (x >>> 3)

def sigHi (x : Nat) : Nat := rotr32 17 x ^^^ rotr32 19 x ^^^ (x >>> 10)

def chFn (x y z : Nat) : Nat := (x &&& y) ^^^ ((4294967295 ^^^ x) &&& z)

def majFn (x y z : Nat) : Nat := (x &&& y) ^^^ (x &&& z) ^^^ (y &&& z)

/-- The SHA-256 round constants. -/
def sha256K : List Nat :=
  [1116352408, 1899447441, 3049323471, 3921009573,
   961987163, 1508970993, 2453635748, 2870763221,
   3624381080, 310598401, 607225278, 1426881987,
   1925078388, 2162078206, 2614888103, 3248222580,
   3835390401, 4022224774, 264347078, 604807628,
   770255983, 1249150122, 1555081692, 1996064986,
   2554220882, 2821834349, 2952996808, 3210313671,
   3336571891, 3584528711, 113926993, 338241895,
   666307205, 773529912, 1294757372, 1396182291,
   1695183700, 1986661051, 2177026350, 2456956037,
   2730485921, 2820302411, 3259730800, 3345764771,
   3516065817, 3600352804, 4094571909, 275423344,
   430227734, 506948616, 659060556, 883997877,
   958139571, 1322822218, 1537002063, 1747873779,
   1955562222, 2024104815, 2227730452, 2361852424,
   2428436474, 2756734187, 3204031479, 3329325298]

/-- `n` bytes of `x` in big-endian order. -/
def beBytes : Nat → Nat → List Nat
  | 0, _ => []
  | m + 1, x => beBytes m (x >>> 8) ++ [x % 256]

/-- SHA-256 padding: append `0x80`, zero bytes up to 56 mod 64, then the
bit length as 8 big-endian bytes. -/
def sha256pad (msg : List Nat) : List Nat :=
  let l := msg.length
  msg ++ 128 :: List.replicate ((119 - l % 64) % 64) 0 ++ beBytes 8 (8 * l)

/-- Big-endian 32-bit words of a byte list. -/
def toWords : List Nat → List Nat
  | a :: b :: c :: d :: rest =>
      (a * 16777216 + b * 65536 + c * 256 + d) :: toWords rest
  | _ => []

/-- Extend the 16-word message schedule by `n` further words. -/
def extendSchedule : Nat → List Nat → List Nat
  | 0, w => w
  | n + 1, w =>
      let t := w.length
      let wt := u32 (sigHi (w.getD (t - 2) 0) + w.getD (t - 7) 0 +
                     sigLo (w.getD (t - 15) 0) + w.getD (t - 16) 0)
      extendSchedule n (w ++ [wt])

/-- State of the SHA-256 compression function: eight working words. -/
abbrev Sha256St := Nat × Nat × Nat × Nat × Nat × Nat × Nat × Nat

/-- One round of the compression function. -/
def shaStep (st : Sha256St) (kw : Nat × Nat) : Sha256St :=
  match st with
  | (a, b, c, d, e, f, g, h) =>
      let t1 := u32 (h + sumE e + chFn e f g + kw.1 + kw.2)
      let t2 := u32 (sumA a + majFn a b c)
      (u32 (t1 + t2), a, b, c, u32 (d + t1), e, f, g)

/-- Process one 64-byte block. -/
def compressBlock (hs : Sha256St) (block : List Nat) : Sha256St :=
  let w := extendSchedule 48 (toWords block)
  match hs, (sha256K.zip w).foldl shaStep hs with
  | (h0, h1, h2, h3, h4, h5, h6, h7), (a, b, c, d, e, f, g, h) =>
      (u32 (h0 + a), u32 (h1 + b), u32 (h2 + c), u32 (h3 + d),
       u32 (h4 + e), u32 (h5 + f), u32 (h6 + g), u32 (h7 + h))

/-- Split a byte list into 64-byte chunks (fuel is the list length). -/
def chunks64Aux : Nat → List Nat → List (List Nat)
  | 0, _ => []
  | _ + 1, [] => []
  | n + 1, x :: xs => (x :: xs).take 64 :: chunks64Aux n ((x :: xs).drop 64)

def chunks64 (l : List Nat) : List (List Nat) := chunks64Aux l.length l

/-- SHA-256 of a byte list, as the 32-byte digest. -/
def sha256 (msg : List Nat) : List Nat :=
  match (chunks64 (sha256pad msg)).foldl compressBlock
      (1779033703, 3144134277, 1013904242, 2773480762,
       1359893119, 2600822924, 528734635, 1541459225) with
  | (h0, h1, h2, h3, h4, h5, h6, h7) =>
      beBytes 4 h0 ++ beBytes 4 h1 ++ beBytes 4 h2 ++ beBytes 4 h3 ++
      beBytes 4 h4 ++ beBytes 4 h5 ++ beBytes 4 h6 ++ beBytes 4 h7

/-! ## Base64 (model of `base64.b64encode`, standard alphabet, with padding) -/

/-- The standard base64 alphabet, as ASCII byte values. -/
def b64char (i : Nat) : Nat :=
  (strBytes "ABCDEFGHIJKLMNOPQRSTUVWXYZabcdefghijklmnopqrstuvwxyz0123456789+/").getD i 65

/-- Standard base64 encoding with `=` padding (byte 61). -/
def b64encode : List Nat → List Nat
  | [] => []
  | [a] => [b64char (a >>> 2), b64char ((a % 4) <<< 4), 61, 61]
  | [a, b] => [b64char (a >>> 2), b64char (((a % 4) <<< 4) ||| (b >>> 4)),
               b64char ((b % 16) <<< 2), 61]
  | a :: b :: c :: rest =>
      b64char (a >>> 2) :: b64char (((a % 4) <<< 4) ||| (b >>> 4)) ::
      b64char (((b % 16) <<< 2) ||| (c >>> 6)) :: b64char (c % 64) ::
      b64encode rest

/-! ## Hostname splitting and joining (models of `str.split` / `str.join`) -/

/-- Model of Python's `name.split('.')` on a byte string: split on byte 46,
keeping empty pieces; the empty string yields one empty piece. -/
def splitDot : List Nat → List (List Nat)
  | [] => [[]]
  | b :: bs =>
      if b = 46 then [] :: splitDot bs
      else
        match splitDot bs with
        | [] => [[b]]
        | l :: ls => (b :: l) :: ls

/-- Model of Python's `'.'.join(pieces)` on byte strings. -/
def joinDot : List (List Nat) → List Nat
  | [] => []
  | [x] => x
  | x :: y :: t => x ++ 46 :: joinDot (y :: t)

/-! ## Data model of the persisted store

Python 2 values that occur as fields of a site configuration object. -/

inductive PyVal : Type where
  | none : PyVal
  | bool : Bool → PyVal
  | num : Int → PyVal
  | str : String → PyVal
deriving DecidableEq, Repr

/-- Python truthiness of a field value. -/
def pyTruthy : PyVal → Bool
  | PyVal.none => false
  | PyVal.bool b => b
  | PyVal.num n => !(n == 0)
  | PyVal.str s => !(s == "")

/-- A site configuration object: a JSON object, modelled as an association
list from field names to values.  The empty list models the empty (falsy)
object. -/
abbrev SiteConf := List (String × PyVal)

/-- The in-memory `sts_dict`: an association list from storage keys (byte
strings) to site configuration objects. -/
abbrev StsDict := List (List Nat × SiteConf)

/-- Model of `site_conf.get(field)`: the field's value, or `None` when the
field is missing. -/
def dget : SiteConf → String → PyVal
  | [], _ => PyVal.none
  | p :: ps, k => if p.1 = k then p.2 else dget ps k

/-- Model of `sts_dict.get(key)`. -/
def lookupKey : StsDict → List Nat → Option SiteConf
  | [], _ => none
  | p :: ps, k => if p.1 = k then some p.2 else lookupKey ps k

/-- Model of `key in sts_dict`. -/
def containsKey (d : StsDict) (k : List Nat) : Bool :=
  d.any (fun p => p.1 == k)

/-- Model of `sts_dict[key] = value`: replace the entry if the key is
present, otherwise append it. -/
def dictInsert : StsDict → List Nat → SiteConf → StsDict
  | [], k, v => [(k, v)]
  | p :: ps, k, v => if p.1 = k then (k, v) :: ps else p :: dictInsert ps k v

/-- Model of `del sts_dict[key]`: drop the first entry with that key. -/
def dictDelete : StsDict → List Nat → StsDict
  | [], _ => []
  | p :: ps, k => if p.1 = k then ps else p :: dictDelete ps k

/-- The keys of the store are pairwise distinct (Python dicts guarantee
this; the spec states it as a store invariant). -/
def KeysNodup (d : StsDict) : Prop := (d.map Prod.fst).Nodup

/-! ## Key derivation (`dns_form`, `sts_key`) -/

/-- Model of Python 2's `chr`: the one-byte string for `n`, raising
`ValueError` when `n` is not a byte value. -/
def chr (n : Nat) : Except Unit (List Nat) :=
  if n < 256 then Except.ok [n] else Except.error ()

/-- Model of the list comprehension
`[chr(len(comp)) + comp for comp in components]`, evaluated left to right,
propagating the first `chr` failure. -/
def dnsComponents : List (List Nat) → Except Unit (List (List Nat))
  | [] => Except.ok []
  | comp :: rest => do
      let c ← chr comp.length
      let tail ← dnsComponents rest
      pure ((c ++ comp) :: tail)

/-- `dns_form(name)`: split the hostname on `.` and concatenate each label
preceded by its single length byte. -/
def dns_form (name : List Nat) : Except Unit (List Nat) := do
  let dns_comps ← dnsComponents (splitDot name)
  pure dns_comps.flatten

/-- `sts_key(name)`: base64 of the SHA-256 digest of the DNS form followed
by one zero byte. -/
def sts_key (name : List Nat) : Except Unit (List Nat) := do
  let w ← dns_form name
  pure (b64encode (sha256 (w ++ [0])))

/-- The key `sts_key` computes when it succeeds (used to phrase theorem
statements without binding the key explicitly). -/
def keyOf (name : List Nat) : List Nat := (sts_key name).toOption.getD []

/-! ## Lookup (`get_site_conf`) -/

/-- Truthiness of the result of `sts_dict.get(...)`: `None` and the empty
object are falsy. -/
def confTruthy : Option SiteConf → Bool
  | none => false
  | some c => !c.isEmpty

/-- The superdomain loop of `get_site_conf`: for `i` in
`xrange(0, len(components))`, join `components[i:]`, look its key up, and
return the first hit whose configuration is truthy and has a truthy
`include_subdomains` field. -/
def superLoop (d : StsDict) : List (List Nat) → Except Unit (Option (List Nat × SiteConf))
  | [] => Except.ok none
  | c :: rest => do
      let name_part := joinDot (c :: rest)
      let k ← sts_key name_part
      match lookupKey d k with
      | some site_conf =>
          if !site_conf.isEmpty && pyTruthy (dget site_conf "include_subdomains") then
            Except.ok (some (name_part, site_conf))
          else
            superLoop d rest
      | none => superLoop d rest

/-- `get_site_conf(sts_dict, name)`: exact match first (tested for
truthiness), then the superdomain loop, else `(name, None)`. -/
def get_site_conf (sts_dict : StsDict) (name : List Nat) :
    Except Unit (List Nat × Option SiteConf) := do
  let k ← sts_key name
  let site_conf := lookupKey sts_dict k
  if confTruthy site_conf then
    Except.ok (name, site_conf)
  else
    match ← superLoop sts_dict (splitDot name) with
    | some (name_part, sc) => Except.ok (name_part, some sc)
    | none => Except.ok (name, none)

/-- Exact lookup: `sts_dict.get(sts_key(name))`. -/
def lookupExact (d : StsDict) (name : List Nat) : Except Unit (Option SiteConf) := do
  let k ← sts_key name
  Except.ok (lookupKey d k)

/-! ## Mutation (the `set` and `remove` branches of the main program) -/

/-- The site configuration object the `set` branch builds: expiry
`float(0x7FFFFFFF)`, creation time `now`, mode `strict`, and the given
`include_subdomains` flag. -/
def site_conf_new (now : Int) (incl : Bool) : SiteConf :=
  [("expiry", PyVal.num 2147483647),
   ("created", PyVal.num now),
   ("mode", PyVal.str "strict"),
   ("include_subdomains", PyVal.bool incl)]

/-- The `set` branch: `sts_dict[sts_key(args[0])] = site_conf`. -/
def setEntry (d : StsDict) (name : List Nat) (incl : Bool) (now : Int) :
    Except Unit StsDict := do
  let k ← sts_key name
  Except.ok (dictInsert d k (site_conf_new now incl))

/-- The `remove` branch: delete the exact key if present.  The returned
boolean records whether a deletion occurred, which is exactly when the
branch rewrites the file (marks the store dirty). -/
def removeEntry (d : StsDict) (name : List Nat) : Except Unit (StsDict × Bool) := do
  let key ← sts_key name
  if containsKey d key then
    Except.ok (dictDelete d key, true)
  else
    Except.ok (d, false)

/-! ## Loading the persisted document -/

/-- The load step of the main program: `sts_dict = {}`, then
`json.load` only if the file exists.  `file_present` models
`os.path.exists(sts_filename)` and `parse_result` models the outcome of
`json.load` (`Except.error` being a fatal parse error). -/
def load_sts_dict (file_present : Bool) (parse_result : Except Unit StsDict) :
    Except Unit StsDict :=
  if file_present then parse_result else Except.ok []

/-! ## Specification-side definitions

These follow the spec's words; the claims compare them with the
definitions embedded from the source above. -/

/-- The wire form described by the spec: for each label of the hostname,
one length-prefix byte followed by the label's raw bytes, concatenated,
with no trailing root-label byte. -/
def dnsWireSpec (name : List Nat) : List Nat :=
  ((splitDot name).map (fun c => c.length :: c)).flatten

/-- All non-empty suffixes of a list, most specific first. -/
def nonNilSuffixes : List (List Nat) → List (List (List Nat))
  | [] => []
  | x :: xs => (x :: xs) :: nonNilSuffixes xs

/-- The superdomain hostnames the spec walks: for labels
`[l0, l1, ..., ln]`, the joined suffixes `[l1..ln]`, ..., `[ln]`, in that
order. -/
def suffixNames (name : List Nat) : List (List Nat) :=
  match splitDot name with
  | [] => []
  | _ :: cs => (nonNilSuffixes cs).map joinDot

/-- Modelled from the spec: walk candidate hostnames in order and return
the first whose stored entry has `include_subdomains = true`. -/
def specFindSuffix (d : StsDict) : List (List Nat) → Except Unit (Option (List Nat × SiteConf))
  | [] => Except.ok none
  | np :: rest => do
      let k ← sts_key np
      match lookupKey d k with
      | some sc =>
          if dget sc "include_subdomains" = PyVal.bool true then
            Except.ok (some (np, sc))
          else specFindSuffix d rest
      | none => specFindSuffix d rest

/-- Modelled from the spec: the result of `lookupEffective` in the
no-exact-entry case — the first matching superdomain, or the original
hostname paired with absent. -/
def lookupEffectiveSuperSpec (d : StsDict) (name : List Nat) :
    Except Unit (List Nat × Option SiteConf) := do
  match ← specFindSuffix d (suffixNames name) with
  | some (np, sc) => Except.ok (np, some sc)
  | none => Except.ok (name, none)

/-- A site configuration is well formed when its `include_subdomains`
field, if any, is a boolean (the persisted document format stores it as a
boolean). -/
def wfConf (c : SiteConf) : Bool :=
  match dget c "include_subdomains" with
  | PyVal.none => true
  | PyVal.bool _ => true
  | _ => false

/-- Every configuration in the store is well formed. -/
def WFstore (d : StsDict) : Bool := d.all (fun p => wfConf p.2)

/-! ## Helper lemmas -/

theorem except_bind_ok {α β : Type} (a : α) (f : α → Except Unit β) :
    (Except.ok a >>= f) = f a := rfl

theorem except_bind_err {α β : Type} (f : α → Except Unit β) :
    ((Except.error () : Except Unit α) >>= f) = Except.error () := rfl

theorem splitDot_ne_nil (l : List Nat) : splitDot l ≠ [] := by
  induction l with
  | nil => simp [splitDot]
  | cons b bs ih =>
      unfold splitDot
      by_cases hb : b = 46
      · simp [hb]
      · simp only [hb, if_false]
        cases h : splitDot bs with
        | nil => simp
        | cons l ls => simp

theorem joinDot_cons_head (b : Nat) (l : List Nat) (ls : List (List Nat)) :
    joinDot ((b :: l) :: ls) = b :: joinDot (l :: ls) := by
  cases ls with
  | nil => simp [joinDot]
  | cons m t => simp [joinDot]

theorem joinDot_splitDot (l : List Nat) : joinDot (splitDot l) = l := by
  induction l with
  | nil => simp [splitDot, joinDot]
  | cons b bs ih =>
      unfold splitDot
      by_cases hb : b = 46
      · subst hb
        simp only [if_pos rfl]
        cases h : splitDot bs with
        | nil => exact absurd h (splitDot_ne_nil bs)
        | cons l ls =>
            rw [h] at ih
            show joinDot ([] :: l :: ls) = 46 :: bs
            simp [joinDot, ih]
      · simp only [hb, if_false]
        cases h : splitDot bs with
        | nil => exact absurd h (splitDot_ne_nil bs)
        | cons l ls =>
            rw [h] at ih
            show joinDot ((b :: l) :: ls) = b :: bs
            rw [joinDot_cons_head, ih]

theorem dnsComponents_ok (comps : List (List Nat))
    (h : ∀ c ∈ comps, c.length ≤ 255) :
    dnsComponents comps = Except.ok (comps.map (fun c => c.length :: c)) := by
  induction comps with
  | nil => rfl
  | cons c cs ih =>
      have hc : c.length < 256 := Nat.lt_succ_of_le (h c (by simp))
      have hcs : ∀ x ∈ cs, x.length ≤ 255 := fun x hx => h x (by simp [hx])
      unfold dnsComponents
      rw [show chr c.length = Except.ok [c.length] from if_pos hc,
          except_bind_ok, ih hcs, except_bind_ok]
      rfl

theorem dnsComponents_err (comps : List (List Nat))
    (h : ∃ c ∈ comps, 255 < c.length) :
    dnsComponents comps = Except.error () := by
  induction comps with
  | nil => simp at h
  | cons c cs ih =>
      unfold dnsComponents
      by_cases hc : c.length < 256
      · obtain ⟨x, hx, hxlen⟩ := h
        have hx' : x ∈ cs := by
          rcases List.mem_cons.mp hx with he | hm
          · subst he; omega
          · exact hm
        rw [show chr c.length = Except.ok [c.length] from if_pos hc,
            except_bind_ok, ih ⟨x, hx', hxlen⟩, except_bind_err]
      · rw [show chr c.length = Except.error () from if_neg hc, except_bind_err]

theorem dns_form_ok (name : List Nat)
    (h : ∀ c ∈ splitDot name, c.length ≤ 255) :
    dns_form name = Except.ok (dnsWireSpec name) := by
  unfold dns_form dnsWireSpec
  rw [dnsComponents_ok _ h, except_bind_ok]
  rfl

theorem dns_form_err (name : List Nat)
    (h : ∃ c ∈ splitDot name, 255 < c.length) :
    dns_form name = Except.error () := by
  unfold dns_form
  rw [dnsComponents_err _ h, except_bind_err]

theorem sts_key_of_dns_form (name w : List Nat) (h : dns_form name = Except.ok w) :
    sts_key name = Except.ok (b64encode (sha256 (w ++ [0]))) := by
  unfold sts_key
  rw [h, except_bind_ok]
  rfl

theorem sts_key_eq_keyOf (name : List Nat) (h : (sts_key name).isOk = true) :
    sts_key name = Except.ok (keyOf name) := by
  cases hk : sts_key name with
  | ok k => simp [keyOf, hk, Except.toOption]
  | error e => rw [hk] at h; simp [Except.isOk, Except.toBool] at h

theorem lookupKey_mem (d : StsDict) (k : List Nat) (sc : SiteConf)
    (h : lookupKey d k = some sc) : (k, sc) ∈ d := by
  induction d with
  | nil => simp [lookupKey] at h
  | cons p ps ih =>
      unfold lookupKey at h
      by_cases hp : p.1 = k
      · rw [if_pos hp] at h
        injection h with h
        have : p = (k, sc) := by
          cases p
          simp_all
        simp [this]
      · rw [if_neg hp] at h
        exact List.mem_cons_of_mem _ (ih h)

theorem lookupKey_eq_none_iff (d : StsDict) (k : List Nat) :
    lookupKey d k = none ↔ k ∉ d.map Prod.fst := by
  induction d with
  | nil => simp [lookupKey]
  | cons p ps ih =>
      unfold lookupKey
      by_cases hp : p.1 = k
      · simp [hp]
      · simp only [List.map_cons, List.mem_cons]
        rw [if_neg hp, ih]
        constructor
        · intro hn h'
          rcases h' with he | hm
          · exact hp he.symm
          · exact hn hm
        · intro hn hm
          exact hn (Or.inr hm)

theorem containsKey_iff (d : StsDict) (k : List Nat) :
    containsKey d k = true ↔ ∃ sc, lookupKey d k = some sc := by
  induction d with
  | nil => simp [containsKey, lookupKey]
  | cons p ps ih =>
      unfold containsKey lookupKey
      by_cases hp : p.1 = k
      · simp [hp]
      · simpa [hp, containsKey] using ih

theorem lookupKey_dictInsert_self (d : StsDict) (k : List Nat) (v : SiteConf) :
    lookupKey (dictInsert d k v) k = some v := by
  induction d with
  | nil => simp [dictInsert, lookupKey]
  | cons p ps ih =>
      unfold dictInsert
      by_cases hp : p.1 = k
      · rw [if_pos hp]
        simp [lookupKey]
      · rw [if_neg hp]
        unfold lookupKey
        rw [if_neg hp]
        exact ih

theorem lookupKey_dictInsert_frame (d : StsDict) (k : List Nat) (v : SiteConf)
    (k' : List Nat) (h : k' ≠ k) :
    lookupKey (dictInsert d k v) k' = lookupKey d k' := by
  induction d with
  | nil => simp [dictInsert, lookupKey, Ne.symm h]
  | cons p ps ih =>
      unfold dictInsert
      by_cases hp : p.1 = k
      · rw [if_pos hp]
        unfold lookupKey
        rw [if_neg (fun (hh : k = k') => h hh.symm), if_neg (by rw [hp]; exact fun hh => h hh.symm)]
      · rw [if_neg hp]
        unfold lookupKey
        by_cases hp' : p.1 = k'
        · rw [if_pos hp', if_pos hp']
        · rw [if_neg hp', if_neg hp']
          exact ih

theorem lookupKey_dictDelete_self (d : StsDict) (k : List Nat) (h : KeysNodup d) :
    lookupKey (dictDelete d k) k = none := by
  induction d with
  | nil => rfl
  | cons p ps ih =>
      have hnd : KeysNodup ps := (List.nodup_cons.mp h).2
      have hhd : p.1 ∉ ps.map Prod.fst := by
        have := (List.nodup_cons.mp h).1
        simpa using this
      unfold dictDelete
      by_cases hp : p.1 = k
      · rw [if_pos hp]
        exact (lookupKey_eq_none_iff ps k).mpr (hp ▸ hhd)
      · rw [if_neg hp]
        unfold lookupKey
        rw [if_neg hp]
        exact ih hnd

theorem lookupKey_dictDelete_frame (d : StsDict) (k k' : List Nat) (h : k' ≠ k) :
    lookupKey (dictDelete d k) k' = lookupKey d k' := by
  induction d with
  | nil => rfl
  | cons p ps ih =>
      unfold dictDelete
      by_cases hp : p.1 = k
      · rw [if_pos hp]
        have hpk : ¬p.1 = k' := by rw [hp]; exact fun hh => h hh.symm
        symm
        unfold lookupKey
        rw [if_neg hpk]
        cases ps with
        | nil => rfl
        | cons q qs => rfl
      · rw [if_neg hp]
        unfold lookupKey
        by_cases hp' : p.1 = k'
        · rw [if_pos hp', if_pos hp']
        · rw [if_neg hp', if_neg hp']
          exact ih

theorem wf_of_lookup (d : StsDict) (hwf : WFstore d = true) (k : List Nat)
    (sc : SiteConf) (h : lookupKey d k = some sc) : wfConf sc = true := by
  have hmem := lookupKey_mem d k sc h
  have := List.all_eq_true.mp hwf _ hmem
  simpa using this

theorem superLoop_eq_spec (d : StsDict) (hwf : WFstore d = true) :
    ∀ comps : List (List Nat),
      superLoop d comps = specFindSuffix d ((nonNilSuffixes comps).map joinDot) := by
  intro comps
  induction comps with
  | nil => rfl
  | cons c cs ih =>
      simp only [superLoop, specFindSuffix, nonNilSuffixes, List.map_cons]
      cases hk : sts_key (joinDot (c :: cs)) with
      | error e =>
          cases e
          rfl
      | ok k =>
          rw [except_bind_ok, except_bind_ok]
          cases hl : lookupKey d k with
          | none => simp only [hl]; exact ih
          | some sc =>
              have hwfc := wf_of_lookup d hwf k sc hl
              simp only [hl]
              cases hv : dget sc "include_subdomains" with
              | none => simp [pyTruthy, hv, ih]
              | bool b =>
                  cases b
                  · simp [pyTruthy, hv, ih]
                  · cases sc with
                    | nil => simp [dget] at hv
                    | cons q qs => simp [pyTruthy, hv]
              | num n => unfold wfConf at hwfc; rw [hv] at hwfc; simp at hwfc
              | str s => unfold wfConf at hwfc; rw [hv] at hwfc; simp at hwfc

/-! ## Sanity test vector for the SHA-256 model (FIPS 180 example) -/

theorem sha256_abc_vector :
    sha256 (strBytes "abc") =
      [186, 120, 22, 191, 143, 1, 207, 234, 65, 65, 64, 222, 93, 174, 34, 35,
       176, 3, 97, 163, 150, 23, 122, 156, 180, 16, 255, 97, 242, 0, 21, 173] := by
  decide

/-! ## Claim theorems -/

/-- Claim C3: for every hostname whose labels are each at most 255 bytes,
`dns_form` splits the hostname on the dot and returns, for each label in
order, one length-prefix byte holding the label's byte length followed by
the label's raw bytes, concatenated, with no trailing root-label byte. -/
theorem dns_form_is_wire_form (name : List Nat)
    (h : ∀ c ∈ splitDot name, c.length ≤ 255) :
    dns_form name = Except.ok (dnsWireSpec name) :=
  dns_form_ok name h

theorem dns_form_is_wire_form_witness :
    (∀ c ∈ splitDot (strBytes "a.bb.ccc"), c.length ≤ 255) ∧
      dns_form (strBytes "a.bb.ccc") = Except.ok [1, 97, 2, 98, 98, 3, 99, 99, 99] :=
  ⟨by decide, by rw [dns_form_is_wire_form (strBytes "a.bb.ccc") (by decide)]; rfl⟩

/-- Claim C2: for every hostname whose labels are each at most 255 bytes,
`sts_key` returns the standard base64 encoding (with padding) of the
SHA-256 digest of the DNS wire form of the hostname with one extra zero
byte appended after the wire form. -/
theorem sts_key_is_hash_of_wire_form (name : List Nat)
    (h : ∀ c ∈ splitDot name, c.length ≤ 255) :
    ∃ w, dns_form name = Except.ok w ∧
      sts_key name = Except.ok (b64encode (sha256 (w ++ [0]))) :=
  ⟨dnsWireSpec name, dns_form_ok name h,
    sts_key_of_dns_form name _ (dns_form_ok name h)⟩

theorem sts_key_is_hash_of_wire_form_witness :
    (∀ c ∈ splitDot (strBytes "www.example.com"), c.length ≤ 255) ∧
      ∃ w, dns_form (strBytes "www.example.com") = Except.ok w ∧
        sts_key (strBytes "www.example.com") =
          Except.ok (b64encode (sha256 (w ++ [0]))) :=
  ⟨by decide, sts_key_is_hash_of_wire_form (strBytes "www.example.com") (by decide)⟩

/-- Claim C4: a hostname containing a label longer than 255 bytes makes
the key derivation fail with an encoding error (Python 2's `chr` raises)
rather than silently truncating or wrapping the length byte. -/
theorem key_derivation_label_overflow (name : List Nat)
    (h : ∃ c ∈ splitDot name, 255 < c.length) :
    dns_form name = Except.error () ∧ sts_key name = Except.error () := by
  have hd := dns_form_err name h
  refine ⟨hd, ?_⟩
  unfold sts_key
  rw [hd, except_bind_err]

set_option maxRecDepth 4000 in
theorem key_derivation_label_overflow_witness :
    (∃ c ∈ splitDot (List.replicate 256 97), 255 < c.length) ∧
      dns_form (List.replicate 256 97) = Except.error () ∧
      sts_key (List.replicate 256 97) = Except.error () :=
  ⟨by decide, key_derivation_label_overflow (List.replicate 256 97) (by decide)⟩

/-- Claim C10: `dns_form` and `sts_key` are total on every hostname whose
labels are each at most 255 bytes, including the empty hostname (whose
wire form is the single zero length byte of its one empty label) and
hostnames with empty labels from consecutive or leading/trailing dots. -/
theorem key_derivation_total (name : List Nat)
    (h : ∀ c ∈ splitDot name, c.length ≤ 255) :
    (dns_form name).isOk = true ∧ (sts_key name).isOk = true ∧
      dns_form [] = Except.ok [0] := by
  have hd := dns_form_ok name h
  refine ⟨by rw [hd]; rfl, ?_, rfl⟩
  rw [sts_key_of_dns_form name _ hd]
  rfl

theorem key_derivation_total_witness :
    (∀ c ∈ splitDot (strBytes ".a."), c.length ≤ 255) ∧
      ((dns_form (strBytes ".a.")).isOk = true ∧
        (sts_key (strBytes ".a.")).isOk = true ∧
        dns_form [] = Except.ok [0]) :=
  ⟨by decide, key_derivation_total (strBytes ".a.") (by decide)⟩

/-- Claim C5: for every hostname whose exact storage key is present in the
store with a (non-empty) policy entry, `get_site_conf` returns
`(hostname, entry)` for that exact entry, regardless of the entry's
`include_subdomains` flag, without consulting any superdomain (the result
does not depend on any other entry of the store). -/
theorem get_site_conf_exact_wins (d : StsDict) (name : List Nat) (sc : SiteConf)
    (hok : (sts_key name).isOk = true)
    (hl : lookupKey d (keyOf name) = some sc)
    (hne : sc ≠ []) :
    get_site_conf d name = Except.ok (name, some sc) := by
  have hk := sts_key_eq_keyOf name hok
  unfold get_site_conf
  rw [hk, except_bind_ok, hl]
  have ht : confTruthy (some sc) = true := by
    cases sc with
    | nil => exact absurd rfl hne
    | cons q qs => rfl
  simp only [ht, if_true]

theorem get_site_conf_exact_wins_witness :
    ((sts_key (strBytes "eff.org")).isOk = true ∧
      lookupKey [(keyOf (strBytes "eff.org"), site_conf_new 0 false)]
        (keyOf (strBytes "eff.org")) = some (site_conf_new 0 false) ∧
      site_conf_new 0 false ≠ []) ∧
    get_site_conf [(keyOf (strBytes "eff.org"), site_conf_new 0 false)]
        (strBytes "eff.org") =
      Except.ok (strBytes "eff.org", some (site_conf_new 0 false)) :=
  ⟨⟨by decide, by decide, by decide⟩,
    get_site_conf_exact_wins _ _ _ (by decide) (by decide) (by decide)⟩

/-- Claim C1: for every hostname with no exact entry in the store (and a
well-formed store), `get_site_conf` walks the proper suffixes of the
hostname's label list, most specific first, returns `(suffix, entry)` for
the first suffix whose stored entry has `include_subdomains = true`, and
returns the original hostname paired with absent when no suffix matches —
i.e. it agrees with the spec's superdomain walk. -/
theorem get_site_conf_superdomains (d : StsDict) (name : List Nat)
    (hok : (sts_key name).isOk = true)
    (habs : lookupKey d (keyOf name) = none)
    (hwf : WFstore d = true) :
    get_site_conf d name = lookupEffectiveSuperSpec d name := by
  have hk := sts_key_eq_keyOf name hok
  unfold get_site_conf lookupEffectiveSuperSpec
  rw [hk, except_bind_ok, habs]
  simp only [confTruthy, Bool.false_eq_true, if_false]
  cases hsd : splitDot name with
  | nil => exact absurd hsd (splitDot_ne_nil name)
  | cons c cs =>
      have hname : joinDot (c :: cs) = name := by rw [← hsd, joinDot_splitDot]
      have hfirst : superLoop d (c :: cs) = superLoop d cs := by
        simp only [superLoop, hname, hk, except_bind_ok, habs]
      have hsuf : suffixNames name = (nonNilSuffixes cs).map joinDot := by
        unfold suffixNames
        rw [hsd]
      rw [hfirst, superLoop_eq_spec d hwf cs, hsuf]

theorem get_site_conf_superdomains_witness :
    ((sts_key (strBytes "sub.eff.org")).isOk = true ∧
      lookupKey [(keyOf (strBytes "eff.org"), site_conf_new 0 true)]
        (keyOf (strBytes "sub.eff.org")) = none ∧
      WFstore [(keyOf (strBytes "eff.org"), site_conf_new 0 true)] = true) ∧
    get_site_conf [(keyOf (strBytes "eff.org"), site_conf_new 0 true)]
        (strBytes "sub.eff.org") =
      lookupEffectiveSuperSpec [(keyOf (strBytes "eff.org"), site_conf_new 0 true)]
        (strBytes "sub.eff.org") :=
  ⟨⟨by decide, by decide, by decide⟩,
    get_site_conf_superdomains _ _ (by decide) (by decide) (by decide)⟩

theorem superLoop_no_falsy (d : StsDict) :
    ∀ comps np sc, superLoop d comps = Except.ok (some (np, sc)) → sc ≠ [] := by
  intro comps
  induction comps with
  | nil =>
      intro np sc h
      exact Option.noConfusion (Except.ok.inj h)
  | cons c cs ih =>
      intro np sc h
      simp only [superLoop] at h
      cases hk : sts_key (joinDot (c :: cs)) with
      | error e =>
          rw [hk, except_bind_err] at h
          exact Except.noConfusion h
      | ok k =>
          rw [hk, except_bind_ok] at h
          cases hl : lookupKey d k with
          | none =>
              rw [hl] at h
              exact ih np sc h
          | some sc' =>
              rw [hl] at h
              split at h
              · rename_i hcond
                injection hcond with hconf
                subst hconf
                split at h
                · rename_i hcond2
                  simp only [Except.ok.injEq, Option.some.injEq, Prod.mk.injEq] at h
                  obtain ⟨-, h2⟩ := h
                  intro hnil
                  rw [h2, hnil] at hcond2
                  simp at hcond2
                · exact ih np sc h
              · rename_i hcond
                exact Option.noConfusion hcond

/-- Claim C9 (implicit): the exact-match step of `get_site_conf` tests the
stored value for truthiness, not key presence: an entry stored under the
exact key whose value is falsy (the empty object) is treated as absent in
step 1 (the lookup falls through to the superdomain loop), and the loop
also never returns a falsy entry, so the falsy entry is returned neither
as exact nor as superdomain match. -/
theorem get_site_conf_skips_falsy (d : StsDict) (name : List Nat)
    (hok : (sts_key name).isOk = true)
    (he : lookupKey d (keyOf name) = some []) :
    (get_site_conf d name = do
        match ← superLoop d (splitDot name) with
        | some (np, sc) => Except.ok (np, some sc)
        | none => Except.ok (name, none)) ∧
      ∀ np osc, get_site_conf d name = Except.ok (np, osc) → osc ≠ some [] := by
  have hk := sts_key_eq_keyOf name hok
  have hpart1 : get_site_conf d name = (do
      match ← superLoop d (splitDot name) with
      | some (np, sc) => Except.ok (np, some sc)
      | none => Except.ok (name, none)) := by
    unfold get_site_conf
    rw [hk, except_bind_ok, he]
    simp only [confTruthy, List.isEmpty_nil, Bool.not_true, Bool.false_eq_true, if_false]
  refine ⟨hpart1, ?_⟩
  intro np osc hres
  rw [hpart1] at hres
  cases hsl : superLoop d (splitDot name) with
  | error e =>
      rw [hsl, except_bind_err] at hres
      exact Except.noConfusion hres
  | ok r =>
      rw [hsl, except_bind_ok] at hres
      cases r with
      | none =>
          simp only [Except.ok.injEq, Prod.mk.injEq] at hres
          obtain ⟨-, h2⟩ := hres
          rw [← h2]
          simp
      | some pr =>
          obtain ⟨np', sc'⟩ := pr
          have hne := superLoop_no_falsy d (splitDot name) np' sc' hsl
          simp only [Except.ok.injEq, Prod.mk.injEq] at hres
          obtain ⟨-, h2⟩ := hres
          rw [← h2]
          intro hcon
          injection hcon with hcon
          exact hne hcon

theorem get_site_conf_skips_falsy_witness :
    ((sts_key (strBytes "x.y")).isOk = true ∧
      lookupKey [(keyOf (strBytes "x.y"), [])] (keyOf (strBytes "x.y")) = some []) ∧
    ((get_site_conf [(keyOf (strBytes "x.y"), [])] (strBytes "x.y") = do
        match ← superLoop [(keyOf (strBytes "x.y"), [])] (splitDot (strBytes "x.y")) with
        | some (np, sc) => Except.ok (np, some sc)
        | none => Except.ok (strBytes "x.y", none)) ∧
      ∀ np osc,
        get_site_conf [(keyOf (strBytes "x.y"), [])] (strBytes "x.y") =
            Except.ok (np, osc) →
          osc ≠ some []) :=
  ⟨⟨by decide, by decide⟩,
    get_site_conf_skips_falsy [(keyOf (strBytes "x.y"), [])] (strBytes "x.y")
      (by decide) (by decide)⟩

/-- Claim C6: `setEntry` followed by `lookupExact` on the same hostname
returns exactly the entry just inserted, with mode `strict`, the far-future
expiry sentinel, `created = now`, and the given `include_subdomains` flag;
the insertion is stored under the hostname's exact storage key only — every
other key of the store is left unchanged. -/
theorem set_then_lookup_roundtrip (d : StsDict) (name : List Nat)
    (incl : Bool) (now : Int)
    (hok : (sts_key name).isOk = true) :
    ∃ d', setEntry d name incl now = Except.ok d' ∧
      lookupExact d' name = Except.ok (some (site_conf_new now incl)) ∧
      dget (site_conf_new now incl) "mode" = PyVal.str "strict" ∧
      dget (site_conf_new now incl) "expiry" = PyVal.num 2147483647 ∧
      dget (site_conf_new now incl) "created" = PyVal.num now ∧
      dget (site_conf_new now incl) "include_subdomains" = PyVal.bool incl ∧
      ∀ k', k' ≠ keyOf name → lookupKey d' k' = lookupKey d k' := by
  have hk := sts_key_eq_keyOf name hok
  refine ⟨dictInsert d (keyOf name) (site_conf_new now incl), ?_, ?_, rfl, rfl, rfl, rfl, ?_⟩
  · unfold setEntry
    rw [hk, except_bind_ok]
  · unfold lookupExact
    rw [hk, except_bind_ok, lookupKey_dictInsert_self]
  · intro k' hne
    exact lookupKey_dictInsert_frame d (keyOf name) _ k' hne

theorem set_then_lookup_roundtrip_witness :
    (sts_key (strBytes "example.com")).isOk = true ∧
      ∃ d', setEntry [] (strBytes "example.com") true 5 = Except.ok d' ∧
        lookupExact d' (strBytes "example.com") =
          Except.ok (some (site_conf_new 5 true)) ∧
        dget (site_conf_new 5 true) "mode" = PyVal.str "strict" ∧
        dget (site_conf_new 5 true) "expiry" = PyVal.num 2147483647 ∧
        dget (site_conf_new 5 true) "created" = PyVal.num 5 ∧
        dget (site_conf_new 5 true) "include_subdomains" = PyVal.bool true ∧
        ∀ k', k' ≠ keyOf (strBytes "example.com") →
          lookupKey d' k' = lookupKey [] k' :=
  ⟨by decide, set_then_lookup_roundtrip [] (strBytes "example.com") true 5 (by decide)⟩

/-- Claim C7: the `remove` branch deletes only the entry under the exact
storage key of the hostname, reports whether such an entry existed (and
rewrites the file exactly in that case), never touches any other key —
in particular a superdomain's entry — and is the identity on the store
when no entry existed. -/
theorem remove_exact_only (d : StsDict) (name : List Nat)
    (hok : (sts_key name).isOk = true)
    (hnd : KeysNodup d) :
    removeEntry d name =
        Except.ok
          (if containsKey d (keyOf name) then dictDelete d (keyOf name) else d,
            containsKey d (keyOf name)) ∧
      (containsKey d (keyOf name) = true ↔
        ∃ sc, lookupKey d (keyOf name) = some sc) ∧
      lookupKey (dictDelete d (keyOf name)) (keyOf name) = none ∧
      (∀ k', k' ≠ keyOf name →
        lookupKey (dictDelete d (keyOf name)) k' = lookupKey d k') ∧
      (containsKey d (keyOf name) = false →
        removeEntry d name = Except.ok (d, false)) := by
  have hk := sts_key_eq_keyOf name hok
  have hbranch : removeEntry d name =
      Except.ok
        (if containsKey d (keyOf name) then dictDelete d (keyOf name) else d,
          containsKey d (keyOf name)) := by
    unfold removeEntry
    rw [hk, except_bind_ok]
    cases hcc : containsKey d (keyOf name) with
    | true => simp [hcc]
    | false => simp [hcc]
  refine ⟨hbranch, containsKey_iff d (keyOf name),
    lookupKey_dictDelete_self d (keyOf name) hnd,
    fun k' h => lookupKey_dictDelete_frame d (keyOf name) k' h, ?_⟩
  intro hfalse
  rw [hbranch, hfalse]
  simp

theorem remove_exact_only_witness :
    ((sts_key (strBytes "google.com")).isOk = true ∧
      KeysNodup [(keyOf (strBytes "www.google.com"), site_conf_new 0 false)] ∧
      containsKey [(keyOf (strBytes "www.google.com"), site_conf_new 0 false)]
        (keyOf (strBytes "google.com")) = false) ∧
    removeEntry [(keyOf (strBytes "www.google.com"), site_conf_new 0 false)]
        (strBytes "google.com") =
      Except.ok ([(keyOf (strBytes "www.google.com"), site_conf_new 0 false)], false) ∧
    lookupKey [(keyOf (strBytes "www.google.com"), site_conf_new 0 false)]
        (keyOf (strBytes "www.google.com")) = some (site_conf_new 0 false) := by
  refine ⟨⟨by decide, by unfold KeysNodup; decide, by decide⟩, ?_, by decide⟩
  exact (remove_exact_only
    [(keyOf (strBytes "www.google.com"), site_conf_new 0 false)]
    (strBytes "google.com") (by decide) (by unfold KeysNodup; decide)).2.2.2.2 (by decide)

/-- Claim C8: when the external document file is missing, loading yields
the empty store rather than an error; a present document propagates its
parse outcome, so only a present-but-malformed document is a fatal parse
error. -/
theorem load_missing_is_empty :
    (∀ p, load_sts_dict false p = Except.ok []) ∧
      load_sts_dict true (Except.error ()) = Except.error () ∧
      ∀ d, load_sts_dict true (Except.ok d) = Except.ok d :=
  ⟨fun _ => rfl, rfl, fun _ => rfl⟩

theorem load_missing_is_empty_witness :
    load_sts_dict false (Except.error ()) = Except.ok [] ∧
      load_sts_dict true (Except.error ()) = Except.error () :=
  ⟨load_missing_is_empty.1 (Except.error ()), load_missing_is_empty.2.1⟩
